import Mathlib

/-!
# Verification of the amcp client codec

Shallow embedding of the AMCP client codec (`amcp.go`): the response parser
(`receive` together with `parseCodeLine`) and the command encoder
(`formatCmd`).  Bytes read from the wire are modelled as `Nat`, runes written
by the encoder as `Char`.  Each call to `bufio.Reader.ReadSlice` is modelled
as consuming one `Chunk` from a list: `Chunk.ok b` is a successful read
returning the byte slice `b` (in Go this slice always ends with the `\n`
delimiter), `Chunk.err` is any read error (I/O failure, timeout, EOF).
A Go runtime panic caused by a slice bound out of range is modelled by the
explicit outcome `RecvResult.sliceOutOfRange`.
-/

namespace Amcp

/-- `var crnl = []byte{'\r', '\n'}` from the source, as byte values. -/
def crnl : List Nat := [13, 10]

/-- Result of one `ReadSlice('\n')` call on the stream. -/
inductive Chunk where
  | ok (b : List Nat)
  | err
deriving DecidableEq

/-- The incoming byte stream, presented as the sequence of reads. -/
abbrev ByteStream := List Chunk

/-- The `data interface{}` result of `receive`: either the status line's own
message (`string`) or the accumulated lines (`[]string`). -/
inductive Payload where
  | single (s : List Nat)
  | list (v : List (List Nat))
deriving DecidableEq

/-- The two error values produced by `parseCodeLine`:
`"short response: " + line` and `"invalid response: " + line`. -/
inductive ParseErr where
  | short (line : List Nat)
  | invalid (line : List Nat)
deriving DecidableEq

/-- The offending line carried by a `parseCodeLine` error. -/
def ParseErr.line : ParseErr → List Nat
  | .short l => l
  | .invalid l => l

/-- Outcome of `receive`: a code with data, a transport (read) error passed
through unchanged, a status-line parse error, or a Go runtime panic from a
slice bound out of range. -/
inductive RecvResult where
  | ok (code : Int) (data : Payload)
  | transportErr
  | parseErr (e : ParseErr)
  | sliceOutOfRange
deriving DecidableEq

/-- Whether a `RecvResult` is a status-line parse error. -/
def RecvResult.isParseErr : RecvResult → Bool
  | .parseErr _ => true
  | _ => false

/-- All bytes are ASCII decimal digits (`'0' = 48` .. `'9' = 57`). -/
def allDigits (s : List Nat) : Bool :=
  s.all fun c => 48 ≤ c && c ≤ 57

/-- Decimal value of a digit string. -/
def digitsVal (s : List Nat) : Nat :=
  s.foldl (fun acc c => acc * 10 + (c - 48)) 0

/-- `strconv.Atoi` on a byte string: an optional `+`/`-` sign followed by at
least one ASCII digit, base 10.  (The source only ever applies it to
3-byte slices, so 64-bit overflow cannot occur and is not modelled.) -/
def atoi (s : List Nat) : Option Int :=
  match s with
  | [] => none
  | c :: rest =>
    if c = 43 then
      if rest ≠ [] ∧ allDigits rest then some (digitsVal rest : Int) else none
    else if c = 45 then
      if rest ≠ [] ∧ allDigits rest then some (-(digitsVal rest : Int)) else none
    else if allDigits s then some (digitsVal s : Int) else none

/-- `parseCodeLine` from the source: reject a line shorter than 4 bytes or
whose byte at index 3 is not a space (`"short response"`); parse the first
3 bytes with `strconv.Atoi`, rejecting a parse failure or a value below 100
(`"invalid response"`); otherwise the code together with the message
`line[4:]`. -/
def parseCodeLine (line : List Nat) : Except ParseErr (Int × List Nat) :=
  if line.length < 4 ∨ line.getD 3 0 ≠ 32 then
    .error (.short line)
  else
    match atoi (line.take 3) with
    | none => .error (.invalid line)
    | some code =>
      if code < 100 then .error (.invalid line) else .ok (code, line.drop 4)

/-- `len(b) > 0 && bytes.Compare(b[len(b)-2:], crnl) == 0`, as evaluated on a
slice of length at least 2 (on length 1 the Go expression panics before
producing a value; `accumLoop` models that case separately). -/
def endsWithCRNL (b : List Nat) : Bool :=
  decide (0 < b.length) && decide (b.drop (b.length - 2) = crnl)

/-- The accumulation loop of `receive` for codes 200/201.  `line` is the
current value of the `line` variable (left over from the previous iteration
or the status line), `v` the accumulator.  Each iteration reads one chunk;
a read error returns it unchanged.  A chunk of length 0 or 1 makes
`b[len(b)-2:]` (or `b[len(b)-1]`) panic.  Otherwise the line content is
appended to `v` *before* the two break tests: code 201 stops at the first
CRLF-terminated chunk, code 200 stops at the chunk that is exactly CRLF. -/
def accumLoop (code : Int) : List Nat → List (List Nat) → ByteStream →
    RecvResult × ByteStream
  | _, _, [] => (.transportErr, [])
  | _, _, .err :: rest => (.transportErr, rest)
  | line, v, .ok b :: rest =>
    if b.length < 2 then (.sliceOutOfRange, rest)
    else
      let line' :=
        if endsWithCRNL b then b.take (b.length - 2)
        else if b.getD (b.length - 1) 0 = 10 then b.take (b.length - 1)
        else line
      let v' := v ++ [line']
      if code = 201 ∧ endsWithCRNL b then (.ok code (.list v'), rest)
      else if code = 200 ∧ b.length = 2 ∧ endsWithCRNL b then
        (.ok code (.list v'), rest)
      else accumLoop code line' v' rest

/-- `receive` from the source.  Reads the first line, strips its last two
bytes unconditionally (`b[:len(b)-2]`, a panic when the read is shorter
than 2 bytes), parses the status line, and for codes 200/201 enters the
accumulation loop with the accumulator initialised to `[msg]`.  The second
component is the part of the stream not consumed. -/
def receive (s : ByteStream) : RecvResult × ByteStream :=
  match s with
  | [] => (.transportErr, [])
  | .err :: rest => (.transportErr, rest)
  | .ok b :: rest =>
    if b.length < 2 then (.sliceOutOfRange, rest)
    else
      let line := b.take (b.length - 2)
      match parseCodeLine line with
      | .error e => (.parseErr e, rest)
      | .ok (code, msg) =>
        if code = 200 ∨ code = 201 then
          accumLoop code line [msg] rest
        else
          (.ok code (.single msg), rest)

/-- ASCII bytes of a string literal (used only for concrete test streams). -/
def bytes (s : String) : List Nat :=
  s.toList.map Char.toNat

/-! ## The command encoder -/

/-- The closed set of argument kinds handled by the type switch inside
`formatCmd`: `int`, `float32`, `float64`, `string`.  Runes of a text
argument are modelled as `Char`.  A float is carried as its IEEE bit
pattern; `strconv.FormatFloat` is external library code, so the two
formatting routines (`'f'`, precision -1, bit size 32/64) are passed in as
abstract functions from the bit pattern to the written runes. -/
inductive Arg where
  | int (i : Int)
  | float32 (bits : Nat)
  | float64 (bits : Nat)
  | str (s : List Char)

/-- `strconv.FormatInt(int64(v), 10)`: the decimal representation, with a
leading minus sign for negatives. -/
def formatInt (i : Int) : List Char :=
  (toString i).toList

/-- Go's `unicode.IsSpace`: `'\t'`, `'\n'`, vertical tab, form feed,
`'\r'`, `' '`, U+0085, U+00A0, and the Unicode `White_Space` code points
above Latin-1. -/
def goIsSpace (c : Char) : Bool :=
  c.toNat = 9 || c.toNat = 10 || c.toNat = 11 || c.toNat = 12 ||
  c.toNat = 13 || c.toNat = 32 || c.toNat = 0x85 || c.toNat = 0xA0 ||
  c.toNat = 0x1680 || (0x2000 ≤ c.toNat && c.toNat ≤ 0x200A) ||
  c.toNat = 0x2028 || c.toNat = 0x2029 || c.toNat = 0x202F ||
  c.toNat = 0x205F || c.toNat = 0x3000

/-- `strings.IndexFunc`: the position of the first rune satisfying `f`
(`none` when Go returns -1; the source only compares the result to -1, so
the rune-index/byte-index distinction is irrelevant). -/
def indexFunc (f : Char → Bool) : List Char → Option Nat
  | [] => none
  | c :: rest => if f c then some 0 else (indexFunc f rest).map (· + 1)

/-- The `for _, r := range v` escaping loop of the `string` case: each rune
is appended to the builder `acc`, with `"` written as `\"`, `\` as `\\`,
and a newline as the two runes `\n`. -/
def writeEscaped (acc : List Char) : List Char → List Char
  | [] => acc
  | r :: rest =>
    writeEscaped
      (acc ++
        (if r = '"' then ['\\', '"']
         else if r = '\\' then ['\\', '\\']
         else if r = '\n' then ['\\', 'n']
         else [r])) rest

/-- The runes written for one argument by the type switch inside
`formatCmd`'s loop.  A string is wrapped in double quotes when
`strings.IndexFunc(v, unicode.IsSpace) != -1`, and its runes are passed
through the escaping loop either way. -/
def formatArg (f32 f64 : Nat → List Char) : Arg → List Char
  | .int i => formatInt i
  | .float32 b => f32 b
  | .float64 b => f64 b
  | .str v =>
    let quote := (indexFunc goIsSpace v).isSome
    (if quote then ['"'] else []) ++ writeEscaped [] v ++
      (if quote then ['"'] else [])

/-- The two runes of the line terminator written by `b.Write(crnl)`. -/
def crnlChars : List Char := ['\r', '\n']

/-- The argument loop of `formatCmd`: for each argument write one space and
then its encoded form, and after the loop append CRLF.  `acc` is the
builder's contents so far. -/
def formatCmdArgs (f32 f64 : Nat → List Char) (acc : List Char) :
    List Arg → List Char
  | [] => acc ++ crnlChars
  | a :: rest => formatCmdArgs f32 f64 (acc ++ ' ' :: formatArg f32 f64 a) rest

/-- `formatCmd` from the source: the command name, the argument loop, the
CRLF terminator. -/
def formatCmd (f32 f64 : Nat → List Char) (cmd : List Char)
    (args : List Arg) : List Char :=
  formatCmdArgs f32 f64 cmd args

/-! ## Encoder lemmas -/

/-- Spec-side description of the escaping table, for comparison with the
builder loop `writeEscaped`: each double quote becomes backslash-quote,
each backslash a doubled backslash, each newline the two characters
backslash-n, and every other character passes through unchanged. -/
def escSpec (c : Char) : List Char :=
  if c = '"' then ['\\', '"']
  else if c = '\\' then ['\\', '\\']
  else if c = '\n' then ['\\', 'n']
  else [c]

theorem writeEscaped_eq (v : List Char) :
    ∀ acc : List Char, writeEscaped acc v = acc ++ v.flatMap escSpec := by
  induction v with
  | nil => intro acc; simp [writeEscaped]
  | cons c rest ih =>
    intro acc
    simp only [writeEscaped, ih, List.flatMap_cons, List.append_assoc, escSpec]

theorem indexFunc_isSome (f : Char → Bool) (v : List Char) :
    (indexFunc f v).isSome = v.any f := by
  induction v with
  | nil => rfl
  | cons c rest ih =>
    by_cases h : f c
    · simp [indexFunc, h]
    · simp [indexFunc, h, Option.isSome_map, ih]

theorem formatCmdArgs_eq (f32 f64 : Nat → List Char) (args : List Arg) :
    ∀ acc : List Char,
      formatCmdArgs f32 f64 acc args =
        acc ++ (args.flatMap fun a => ' ' :: formatArg f32 f64 a) ++ crnlChars := by
  induction args with
  | nil => intro acc; simp [formatCmdArgs]
  | cons a rest ih =>
    intro acc
    simp only [formatCmdArgs, ih, List.flatMap_cons, List.append_assoc,
      List.cons_append]

/-- C4: for every text argument, the encoder wraps the value in double
quotes if and only if it contains a whitespace character, and, independent
of the wrap decision, replaces each double quote with backslash-quote, each
backslash with a doubled backslash, and each newline with backslash-n,
every other character (including a raw carriage return) passing through
unchanged. -/
theorem C4_formatCmd_text_escaping (f32 f64 : Nat → List Char)
    (v : List Char) :
    (formatArg f32 f64 (Arg.str v) =
      if v.any goIsSpace then '"' :: v.flatMap escSpec ++ ['"']
      else v.flatMap escSpec) ∧
    (v.any goIsSpace = true ↔ ∃ c ∈ v, goIsSpace c = true) ∧
    escSpec '\r' = ['\r'] := by
  refine ⟨?_, List.any_eq_true, rfl⟩
  show (if (indexFunc goIsSpace v).isSome then ['"'] else []) ++
      writeEscaped [] v ++
      (if (indexFunc goIsSpace v).isSome then ['"'] else []) = _
  rw [indexFunc_isSome, writeEscaped_eq]
  by_cases h : v.any goIsSpace <;> simp [h]

/-- C8: for every command name and argument list, the encoder emits the
name, then for each argument in order exactly one space followed by that
argument's encoded form, then the two-character terminator CR LF; with zero
arguments the output is exactly the name followed by CRLF. -/
theorem C8_formatCmd_shape (f32 f64 : Nat → List Char) (cmd : List Char)
    (args : List Arg) :
    formatCmd f32 f64 cmd args =
      cmd ++ (args.flatMap fun a => ' ' :: formatArg f32 f64 a) ++
        ['\r', '\n'] ∧
    formatCmd f32 f64 cmd [] = cmd ++ ['\r', '\n'] := by
  constructor
  · exact formatCmdArgs_eq f32 f64 args cmd
  · simpa [crnlChars] using formatCmdArgs_eq f32 f64 [] cmd

/-! ## Parser lemmas -/

theorem parseCodeLine_ok_facts (line : List Nat) (c : Int) (m : List Nat)
    (h : parseCodeLine line = .ok (c, m)) :
    100 ≤ c ∧ m = line.drop 4 := by
  unfold parseCodeLine at h
  split at h
  · exact absurd h (by simp)
  · split at h
    · exact absurd h (by simp)
    · split at h
      · exact absurd h (by simp)
      · rename_i hge
        injection h with h'
        injection h' with h1 h2
        exact ⟨by omega, h2.symm⟩

theorem accumLoop_ok_shape (code : Int) (s : ByteStream) :
    ∀ line v c p r, accumLoop code line v s = (.ok c p, r) →
      c = code ∧ ∃ t, p = Payload.list (v ++ t) := by
  induction s with
  | nil => intro line v c p r h; simp [accumLoop] at h
  | cons ch rest ih =>
    intro line v c p r h
    cases ch with
    | err => simp [accumLoop] at h
    | ok b =>
      simp only [accumLoop] at h
      split at h
      · exact absurd h (by simp)
      · split at h
        · injection h with h1 h2
          injection h1 with hc hp
          exact ⟨hc.symm, _, hp.symm⟩
        · split at h
          · injection h with h1 h2
            injection h1 with hc hp
            exact ⟨hc.symm, _, hp.symm⟩
          · obtain ⟨hc, t, hp⟩ := ih _ _ _ _ _ h
            exact ⟨hc, _ :: t, by simpa using hp⟩

theorem accumLoop_200_getLast (s : ByteStream) :
    ∀ line v c w r, accumLoop 200 line v s = (.ok c (.list w), r) →
      w.getLast? = some [] := by
  induction s with
  | nil => intro _ _ _ _ _ h; simp [accumLoop] at h
  | cons ch rest ih =>
    intro line v c w r h
    cases ch with
    | err => simp [accumLoop] at h
    | ok b =>
      simp only [accumLoop] at h
      split at h
      · exact absurd h (by simp)
      · split at h
        · rename_i hcond
          exact absurd hcond.1 (by decide)
        · split at h
          · rename_i hcond
            obtain ⟨-, hlen, hcr⟩ := hcond
            injection h with h1 h2
            injection h1 with hc hp
            injection hp with hw
            rw [← hw, if_pos hcr, hlen]
            simp
          · exact ih _ _ _ _ _ h

/-- A chunk on which the accumulation loop for `code` neither panics nor
breaks: at least 2 bytes and not a terminator for `code`. -/
def NonTerm (code : Int) (b : List Nat) : Prop :=
  2 ≤ b.length ∧
  ¬(code = 201 ∧ endsWithCRNL b = true) ∧
  ¬(code = 200 ∧ b.length = 2 ∧ endsWithCRNL b = true)

instance (code : Int) (b : List Nat) : Decidable (NonTerm code b) := by
  unfold NonTerm; infer_instance

theorem accumLoop_no_term (code : Int) (chunks : List (List Nat))
    (h : ∀ b ∈ chunks, NonTerm code b) :
    ∀ line v,
      (accumLoop code line v (chunks.map Chunk.ok)).1 = .transportErr ∧
      ∀ rest,
        (accumLoop code line v
          (chunks.map Chunk.ok ++ Chunk.err :: rest)).1 = .transportErr := by
  induction chunks with
  | nil => intro line v; exact ⟨rfl, fun rest => rfl⟩
  | cons b chunks ih =>
    intro line v
    obtain ⟨hb2, hb1, hb0⟩ := h b (List.mem_cons_self b chunks)
    have hstep : ∀ tail, accumLoop code line v (Chunk.ok b :: tail) =
        accumLoop code
          (if endsWithCRNL b then b.take (b.length - 2)
           else if b.getD (b.length - 1) 0 = 10 then b.take (b.length - 1)
           else line)
          (v ++ [if endsWithCRNL b then b.take (b.length - 2)
                 else if b.getD (b.length - 1) 0 = 10 then b.take (b.length - 1)
                 else line]) tail := by
      intro tail
      simp only [accumLoop]
      rw [if_neg (by omega), if_neg hb1, if_neg hb0]
    have ih' := ih (fun b hb => h b (List.mem_cons_of_mem _ hb))
    constructor
    · rw [List.map_cons, hstep]; exact (ih' _ _).1
    · intro rest; rw [List.map_cons, List.cons_append, hstep]
      exact (ih' _ _).2 rest

/-- C5: for every successfully parsed response the payload shape is
determined by the status code alone: the code is at least 100; codes 200
and 201 yield a `List` payload; every other code yields a `Single` payload
carrying the status line's own message, with nothing read beyond the
status line. -/
theorem C5_payload_shape_by_code (s : ByteStream) (c : Int) (p : Payload)
    (r : ByteStream) (h : receive s = (.ok c p, r)) :
    100 ≤ c ∧
    ((c = 200 ∨ c = 201) → ∃ v, p = Payload.list v) ∧
    (c ≠ 200 → c ≠ 201 →
      ∃ b m, s = Chunk.ok b :: r ∧
        parseCodeLine (b.take (b.length - 2)) = Except.ok (c, m) ∧
        p = Payload.single m) := by
  match s with
  | [] => exact absurd h (by simp [receive])
  | .err :: rest => exact absurd h (by simp [receive])
  | .ok b :: rest =>
    simp only [receive] at h
    split at h
    · exact absurd h (by simp)
    · split at h
      · exact absurd h (by simp)
      · rename_i code msg heq
        split at h
        · rename_i hcode
          obtain ⟨hc, t, hp⟩ := accumLoop_ok_shape code rest _ _ _ _ _ h
          subst hc
          refine ⟨(parseCodeLine_ok_facts _ _ _ heq).1, fun _ => ⟨_, hp⟩,
            fun h200 h201 => ?_⟩
          rcases hcode with h' | h' <;> exact absurd h' (by assumption)
        · rename_i hcode
          injection h with h1 h2
          injection h1 with hc hp
          subst hc; subst h2
          refine ⟨(parseCodeLine_ok_facts _ _ _ heq).1,
            fun hcc => absurd hcc hcode, fun _ _ => ⟨b, msg, rfl, heq, hp.symm⟩⟩

/-- C6 helper: any line failing one of the status-line shape tests makes
`parseCodeLine` return an error carrying that line. -/
theorem parseCodeLine_bad (line : List Nat)
    (hbad : line.length < 4 ∨ line.getD 3 0 ≠ 32 ∨
      atoi (line.take 3) = none ∨
      ∃ c, atoi (line.take 3) = some c ∧ c < 100) :
    ∃ e, parseCodeLine line = .error e ∧ e.line = line := by
  unfold parseCodeLine
  by_cases h1 : line.length < 4 ∨ line.getD 3 0 ≠ 32
  · exact ⟨.short line, by rw [if_pos h1], rfl⟩
  · rw [if_neg h1]
    rcases hbad with h | h | h | ⟨c, hc, hlt⟩
    · exact absurd (Or.inl h) h1
    · exact absurd (Or.inr h) h1
    · rw [h]; exact ⟨.invalid line, rfl, rfl⟩
    · rw [hc]
      exact ⟨.invalid line, by simp [hlt], rfl⟩

/-- C6: a first line shorter than 4 bytes, or without a space at index 3,
or whose first 3 bytes do not parse as a decimal integer, or parse below
100, makes `receive` fail with a status-line parse error carrying the
offending line, producing no response. -/
theorem C6_malformed_status_line (b : List Nat) (rest : ByteStream)
    (h2 : 2 ≤ b.length)
    (hbad : (b.take (b.length - 2)).length < 4 ∨
      (b.take (b.length - 2)).getD 3 0 ≠ 32 ∨
      atoi ((b.take (b.length - 2)).take 3) = none ∨
      ∃ c, atoi ((b.take (b.length - 2)).take 3) = some c ∧ c < 100) :
    ∃ e, receive (Chunk.ok b :: rest) = (.parseErr e, rest) ∧
      e.line = b.take (b.length - 2) := by
  obtain ⟨e, he, hl⟩ := parseCodeLine_bad _ hbad
  refine ⟨e, ?_, hl⟩
  simp only [receive]
  rw [if_neg (by omega), he]

/-- C7: if during 200/201 accumulation the stream ends or a read fails
before the terminator is reached, `receive` returns a transport error and
never a partial list. -/
theorem C7_no_partial_list (b0 msg : List Nat) (code : Int)
    (chunks : List (List Nat)) (rest : ByteStream)
    (h0 : 2 ≤ b0.length)
    (hp : parseCodeLine (b0.take (b0.length - 2)) = .ok (code, msg))
    (hc : code = 200 ∨ code = 201)
    (h : ∀ b ∈ chunks, NonTerm code b) :
    (receive (Chunk.ok b0 :: chunks.map Chunk.ok)).1 = .transportErr ∧
    (receive (Chunk.ok b0 ::
      (chunks.map Chunk.ok ++ Chunk.err :: rest))).1 = .transportErr := by
  have hrecv : ∀ tail, receive (Chunk.ok b0 :: tail) =
      accumLoop code (b0.take (b0.length - 2)) [msg] tail := by
    intro tail
    simp only [receive]
    rw [if_neg (by omega), hp]
    show (if code = 200 ∨ code = 201 then
        accumLoop code (b0.take (b0.length - 2)) [msg] tail
      else (RecvResult.ok code (Payload.single msg), tail)) = _
    rw [if_pos hc]
  have hloop := accumLoop_no_term code chunks h (b0.take (b0.length - 2)) [msg]
  exact ⟨by rw [hrecv]; exact hloop.1, by rw [hrecv]; exact hloop.2 rest⟩

theorem endsWithCRNL_append_crnl (content : List Nat) :
    endsWithCRNL (content ++ crnl) = true := by
  unfold endsWithCRNL
  rw [Bool.and_eq_true, decide_eq_true_eq, decide_eq_true_eq]
  refine ⟨by simp [crnl], ?_⟩
  have h : (content ++ crnl).length - 2 = content.length := by simp [crnl]
  rw [h, List.drop_left]

theorem take_append_crnl (content : List Nat) :
    (content ++ crnl).take ((content ++ crnl).length - 2) = content := by
  have h : (content ++ crnl).length - 2 = content.length := by simp [crnl]
  rw [h, List.take_left]

/-- C1 counterexample: on the stream `"200 OK\r\n"`, `"a\r\n"`, `"b\r\n"`,
`"\r\n"` the parser does not return `List(["a","b"])`. -/
theorem C1_counterexample :
    (receive [Chunk.ok (bytes "200 OK\r\n"), Chunk.ok (bytes "a\r\n"),
      Chunk.ok (bytes "b\r\n"), Chunk.ok (bytes "\r\n")]).1 ≠
      RecvResult.ok 200 (Payload.list [bytes "a", bytes "b"]) := by
  decide

/-- C1 amended: on a stream starting `"200 OK\r\n"`, `"a\r\n"`, `"b\r\n"`,
`"\r\n"` the parser returns code 200 with payload
`List(["OK","a","b",""])` — the status message first, then the body lines,
then the empty terminator line — and consumes exactly those four reads. -/
theorem C1_amended (rest : ByteStream) :
    receive ([Chunk.ok (bytes "200 OK\r\n"), Chunk.ok (bytes "a\r\n"),
      Chunk.ok (bytes "b\r\n"), Chunk.ok (bytes "\r\n")] ++ rest) =
      (RecvResult.ok 200
        (Payload.list [bytes "OK", bytes "a", bytes "b", []]), rest) :=
  rfl

/-- C2 counterexample: on the stream `"201 OK\r\n"`, `"x\r\n"` the parser
does not return `List(["x"])`. -/
theorem C2_counterexample :
    (receive [Chunk.ok (bytes "201 OK\r\n"), Chunk.ok (bytes "x\r\n")]).1 ≠
      RecvResult.ok 201 (Payload.list [bytes "x"]) := by
  decide

/-- C2 amended: after status line `"201 OK"`, one CRLF-terminated line with
content `content` yields code 201 with payload `List(["OK", content])` —
the status message followed by that line's content — and nothing beyond
that single line is consumed. -/
theorem C2_amended (content : List Nat) (rest : ByteStream) :
    receive (Chunk.ok (bytes "201 OK\r\n") ::
      Chunk.ok (content ++ crnl) :: rest) =
      (RecvResult.ok 201 (Payload.list [bytes "OK", content]), rest) := by
  show accumLoop 201 (bytes "201 OK") [bytes "OK"]
    (Chunk.ok (content ++ crnl) :: rest) = _
  have hlen : ¬((content ++ crnl).length < 2) := by
    simp only [List.length_append, crnl, List.length_cons, List.length_nil]
    omega
  simp only [accumLoop]
  rw [if_neg hlen, endsWithCRNL_append_crnl]
  simp [take_append_crnl, crnl, List.take_left]

/-- C3 counterexample: on the stream `"200 M\r\n"`, `"x\r\n"`, `"\r\n"` the
parser does not return `List(["M","x"])`: the zero-length terminator line
is appended, not discarded. -/
theorem C3_counterexample :
    (receive [Chunk.ok (bytes "200 M\r\n"), Chunk.ok (bytes "x\r\n"),
      Chunk.ok (bytes "\r\n")]).1 ≠
      RecvResult.ok 200 (Payload.list [bytes "M", bytes "x"]) := by
  decide

/-- C3 amended: for a reply with code 200 or 201 the accumulator is
initialised with the status-line message, so the message is the first
element of the resulting list, and for code 200 the zero-length line that
ends the list is appended before the loop stops, so the empty line is the
final element (not discarded). -/
theorem C3_amended (b0 msg : List Nat) (code : Int) (s' : ByteStream)
    (v : List (List Nat)) (c : Int) (r : ByteStream)
    (h0 : 2 ≤ b0.length)
    (hp : parseCodeLine (b0.take (b0.length - 2)) = .ok (code, msg))
    (hc : code = 200 ∨ code = 201)
    (h : receive (Chunk.ok b0 :: s') = (.ok c (.list v), r)) :
    v.head? = some msg ∧ (code = 200 → v.getLast? = some []) := by
  have hrecv : receive (Chunk.ok b0 :: s') =
      accumLoop code (b0.take (b0.length - 2)) [msg] s' := by
    simp only [receive]
    rw [if_neg (by omega), hp]
    show (if code = 200 ∨ code = 201 then
        accumLoop code (b0.take (b0.length - 2)) [msg] s'
      else (RecvResult.ok code (Payload.single msg), s')) = _
    rw [if_pos hc]
  rw [hrecv] at h
  obtain ⟨hc', t, hp'⟩ := accumLoop_ok_shape code s' _ _ _ _ _ h
  injection hp' with hv
  refine ⟨by rw [hv]; rfl, fun h200 => ?_⟩
  subst h200
  exact accumLoop_200_getLast s' _ _ _ _ _ h

theorem C3_amended_witness :
    ([bytes "M", bytes "x", ([] : List Nat)] :
        List (List Nat)).head? = some (bytes "M") ∧
    ((200 : Int) = 200 →
      ([bytes "M", bytes "x", ([] : List Nat)] :
        List (List Nat)).getLast? = some []) :=
  C3_amended (bytes "200 M\r\n") (bytes "M") 200
    [Chunk.ok (bytes "x\r\n"), Chunk.ok (bytes "\r\n")]
    [bytes "M", bytes "x", []] 200 [] (by decide) (by rfl) (Or.inl rfl)
    (by decide)

theorem C5_witness :
    100 ≤ (202 : Int) ∧
    (((202 : Int) = 200 ∨ (202 : Int) = 201) →
      ∃ v, Payload.single (bytes "OK") = Payload.list v) ∧
    ((202 : Int) ≠ 200 → (202 : Int) ≠ 201 →
      ∃ b m, ([Chunk.ok (bytes "202 OK\r\n"), Chunk.err] : ByteStream) =
          Chunk.ok b :: [Chunk.err] ∧
        parseCodeLine (b.take (b.length - 2)) = Except.ok (202, m) ∧
        Payload.single (bytes "OK") = Payload.single m) :=
  C5_payload_shape_by_code [Chunk.ok (bytes "202 OK\r\n"), Chunk.err] 202
    (Payload.single (bytes "OK")) [Chunk.err] (by decide)

theorem C6_witness :
    ∃ e, receive [Chunk.ok (bytes "abc\r\n")] = (.parseErr e, []) ∧
      e.line = (bytes "abc\r\n").take ((bytes "abc\r\n").length - 2) :=
  C6_malformed_status_line (bytes "abc\r\n") [] (by decide) (by decide)

theorem C7_witness :
    (receive (Chunk.ok (bytes "200 OK\r\n") ::
      ([bytes "a\r\n"].map Chunk.ok))).1 = RecvResult.transportErr ∧
    (receive (Chunk.ok (bytes "200 OK\r\n") ::
      ([bytes "a\r\n"].map Chunk.ok ++ Chunk.err :: ([] : ByteStream)))).1 =
      RecvResult.transportErr :=
  C7_no_partial_list (bytes "200 OK\r\n") (bytes "OK") 200 [bytes "a\r\n"] []
    (by decide) (by rfl) (Or.inl rfl) (by decide)

/-- C9: `receive` strips the last two bytes of the first read before
parsing, assuming CRLF termination: the bare-LF line `"202 OK\n"` loses
its final character and parses as code 202 with message `"O"`, and a first
read of the single byte `"\n"` makes `b[:len(b)-2]` go out of range, so on
that input the parser panics instead of returning a malformed-response
error. -/
theorem C9_strip_assumes_crlf :
    (receive [Chunk.ok (bytes "202 OK\n")]).1 =
      RecvResult.ok 202 (Payload.single (bytes "O")) ∧
    (receive [Chunk.ok [10]]).1 = RecvResult.sliceOutOfRange ∧
    RecvResult.isParseErr (receive [Chunk.ok [10]]).1 = false := by
  decide

/-- C10: during 200/201 accumulation the CRLF test slices `b[len(b)-2:]`
guarded only by `len(b) > 0`, so an accumulated line consisting of the
single byte `"\n"` makes the slice go out of range: the parser is not
total over LF-delimited streams. -/
theorem C10_accum_bare_lf_panic :
    (receive [Chunk.ok (bytes "200 OK\r\n"), Chunk.ok [10]]).1 =
      RecvResult.sliceOutOfRange := by
  decide

end Amcp
